import Mathlib

/-!
Shallow embedding of the `github.com/pkg/diff` adapter layer
(`adapter.go`) and the example command (`cmd/pkg-diff-example/main.go`),
together with a spec-level model of the edit-script computation, and
proofs of the specification claims about them.

Conventions of the embedding:
* Go `panic` is modelled by `Except.error`; fallible element access uses
  `Option` (an out-of-range Go index expression panics, modelled by `none`).
* An `io.Writer` is modelled by its `Write` method: a function from the
  byte slice handed to it to the `(int, error)` pair it returns.
* Machine integers carry no overflow concerns here (lengths and indices
  are non-negative and small), so they are modelled by `Nat`.
-/

set_option autoImplicit false

namespace PkgDiff

/-- A byte, as an unsigned 8-bit value carried in a `Nat`. -/
abbrev Byte := Nat

/-- An output sink: the `io.Writer` passed to the adapters' element-writing
methods, modelled by its `Write` method.  Applying the sink to a byte slice
returns the number of bytes written together with an optional error, the
`(int, error)` pair of Go's `io.Writer.Write`. -/
abbrev Sink := List Byte → Nat × Option String

/-- The UTF-8 bytes of a Go string: `io.WriteString(w, s)` hands exactly
these bytes to the writer `w`. -/
def strBytes (s : String) : List Byte := s.toUTF8.data.toList.map (fun b => b.toNat)

/-- Adapter `diffStrings` of adapter.go: wraps two string slices `a`, `b`. -/
structure diffStrings where
  a : List String
  b : List String

/-- Constructor `Strings(a, b []string)` of adapter.go. -/
def Strings (a b : List String) : diffStrings := { a := a, b := b }

/-- Method `diffStrings.LenA`: `return len(ab.a)`. -/
def diffStrings.LenA (ab : diffStrings) : Nat := ab.a.length

/-- Method `diffStrings.LenB`: `return len(ab.b)`. -/
def diffStrings.LenB (ab : diffStrings) : Nat := ab.b.length

/-- Method `diffStrings.Equal`: `return ab.a[ai] == ab.b[bi]`.  The two Go
index expressions panic when out of range; the panic is the `none` case. -/
def diffStrings.Equal (ab : diffStrings) (ai bi : Nat) : Option Bool := do
  let x ← ab.a[ai]?
  let y ← ab.b[bi]?
  return x == y

/-- Method `diffStrings.WriteATo`: `return io.WriteString(w, ab.a[i])`.
`io.WriteString` passes the bytes of the string to the writer and returns
whatever the writer returns. -/
def diffStrings.WriteATo (ab : diffStrings) (w : Sink) (i : Nat) :
    Option (Nat × Option String) :=
  (ab.a[i]?).map (fun s => w (strBytes s))

/-- Method `diffStrings.WriteBTo`: `return io.WriteString(w, ab.b[i])`. -/
def diffStrings.WriteBTo (ab : diffStrings) (w : Sink) (i : Nat) :
    Option (Nat × Option String) :=
  (ab.b[i]?).map (fun s => w (strBytes s))

/-- Adapter `diffBytes` of adapter.go: wraps two slices of byte slices. -/
structure diffBytes where
  a : List (List Byte)
  b : List (List Byte)

/-- Constructor `Bytes(a, b [][]byte)` of adapter.go. -/
def Bytes (a b : List (List Byte)) : diffBytes := { a := a, b := b }

/-- Method `diffBytes.LenA`: `return len(ab.a)`. -/
def diffBytes.LenA (ab : diffBytes) : Nat := ab.a.length

/-- Method `diffBytes.LenB`: `return len(ab.b)`. -/
def diffBytes.LenB (ab : diffBytes) : Nat := ab.b.length

/-- Method `diffBytes.Equal`: `return bytes.Equal(ab.a[ai], ab.b[bi])`.
`bytes.Equal` is byte-wise equality of the two byte slices. -/
def diffBytes.Equal (ab : diffBytes) (ai bi : Nat) : Option Bool := do
  let x ← ab.a[ai]?
  let y ← ab.b[bi]?
  return x == y

/-- Method `diffBytes.WriteATo`: `return w.Write(ab.a[i])`. -/
def diffBytes.WriteATo (ab : diffBytes) (w : Sink) (i : Nat) :
    Option (Nat × Option String) :=
  (ab.a[i]?).map w

/-- Method `diffBytes.WriteBTo`: `return w.Write(ab.b[i])`. -/
def diffBytes.WriteBTo (ab : diffBytes) (w : Sink) (i : Nat) :
    Option (Nat × Option String) :=
  (ab.b[i]?).map w

/-- A universe of Go values modelling the `interface` arguments of the
reflection-based `Slices` adapter.  `nilv` is the untyped nil interface
value. -/
inductive GoVal where
  | nilv
  | boolean (x : Bool)
  | int (n : Int)
  | str (s : String)
  | slice (elems : List GoVal)

mutual

/-- `reflect.DeepEqual` on the `GoVal` universe: recursive structural
equality — values of different dynamic types are never deeply equal,
scalars compare by value, slices element-wise. -/
def deepEqual : GoVal → GoVal → Bool
  | .nilv, .nilv => true
  | .boolean x, .boolean y => x == y
  | .int x, .int y => x == y
  | .str x, .str y => x == y
  | .slice xs, .slice ys => deepEqualList xs ys
  | _, _ => false

/-- Element-wise `reflect.DeepEqual` of two slices of Go values. -/
def deepEqualList : List GoVal → List GoVal → Bool
  | [], [] => true
  | x :: xs, y :: ys => deepEqual x y && deepEqualList xs ys
  | _, _ => false

end

/-- The `reflect.Kind` of a value's dynamic type, restricted to the kinds a
`GoVal` can take. -/
inductive GoKind where
  | boolKind
  | intKind
  | stringKind
  | sliceKind
deriving DecidableEq

/-- A Go panic raised by `Slices`. -/
inductive GoPanic where
  /-- `reflect.ValueOf(nil)` is the zero `reflect.Value`; calling `Type()`
  on it panics inside package reflect ("call of reflect.Value.Type on zero
  Value") — a message that names no argument types. -/
  | reflectZeroValue
  /-- The `fmt.Errorf("diff.Slices called with a non-slice argument: %T,
  %T", a, b)` panic of adapter.go line 60; the fields carry the two
  arguments whose dynamic types the `%T` verbs render. -/
  | nonSliceArgument (a b : GoVal)

/-- `reflect.ValueOf(v).Type().Kind()`: `Type()` panics when `v` is the nil
interface (the zero `reflect.Value`). -/
def reflectTypeKind : GoVal → Except GoPanic GoKind
  | .nilv => .error .reflectZeroValue
  | .boolean _ => .ok .boolKind
  | .int _ => .ok .intKind
  | .str _ => .ok .stringKind
  | .slice _ => .ok .sliceKind

/-- Whether a Go value is a slice value. -/
def isSliceVal : GoVal → Bool
  | .slice _ => true
  | _ => false

/-- Whether a Go value is the nil interface value. -/
def isNilVal : GoVal → Bool
  | .nilv => true
  | _ => false

/-- The elements of a slice value (reached only after the kind check). -/
def sliceElems : GoVal → List GoVal
  | .slice xs => xs
  | _ => []

/-- Adapter `diffSlices` of adapter.go: two reflected slices plus the
element-equality function `eq`. -/
structure diffSlices where
  a : List GoVal
  b : List GoVal
  eq : GoVal → GoVal → Bool

/-- Constructor `Slices(a, b interface, equal func) DiffWrite` of
adapter.go.  A nil `equal` (here `none`) is replaced by
`reflect.DeepEqual`.  The guard `ab.a.Type().Kind() != reflect.Slice ||
ab.b.Type().Kind() != reflect.Slice` evaluates left to right and
short-circuits, so a nil first argument panics inside reflect before the
descriptive panic is reached; panicking is the `Except.error` case. -/
def Slices (a b : GoVal) (equal : Option (GoVal → GoVal → Bool)) :
    Except GoPanic diffSlices := do
  let eq := equal.getD deepEqual
  let ka ← reflectTypeKind a
  if ka ≠ .sliceKind then
    throw (.nonSliceArgument a b)
  else
    let kb ← reflectTypeKind b
    if kb ≠ .sliceKind then
      throw (.nonSliceArgument a b)
    else
      return { a := sliceElems a, b := sliceElems b, eq := eq }

/-- Method `diffSlices.LenA`: `return ab.a.Len()`. -/
def diffSlices.LenA (ab : diffSlices) : Nat := ab.a.length

/-- Method `diffSlices.LenB`: `return ab.b.Len()`. -/
def diffSlices.LenB (ab : diffSlices) : Nat := ab.b.length

/-- Method `diffSlices.atA`: `return ab.a.Index(i).Interface()`;
`Index` panics when out of range. -/
def diffSlices.atA (ab : diffSlices) (i : Nat) : Option GoVal := ab.a[i]?

/-- Method `diffSlices.atB`: `return ab.b.Index(i).Interface()`. -/
def diffSlices.atB (ab : diffSlices) (i : Nat) : Option GoVal := ab.b[i]?

/-- Method `diffSlices.Equal`: `return ab.eq(ab.atA(ai), ab.atB(bi))`. -/
def diffSlices.Equal (ab : diffSlices) (ai bi : Nat) : Option Bool := do
  let x ← ab.atA ai
  let y ← ab.atB bi
  return ab.eq x y

mutual

/-- The default formatting `fmt.Fprint` applies to a single operand (the
`%v` verb): booleans as `true`/`false`, integers in decimal, strings
verbatim, slices bracketed with space-separated elements, nil as a
nil-marker. -/
def goFormat : GoVal → String
  | .nilv => "<nil>"
  | .boolean true => "true"
  | .boolean false => "false"
  | .int n => toString n
  | .str s => s
  | .slice xs => "[" ++ goFormatList xs ++ "]"

/-- Space-separated default formatting of a slice's elements. -/
def goFormatList : List GoVal → String
  | [] => ""
  | [x] => goFormat x
  | x :: y :: xs => goFormat x ++ " " ++ goFormatList (y :: xs)

end

/-- Method `diffSlices.WriteATo`: `return fmt.Fprint(w, ab.atA(i))`.
`fmt.Fprint` writes the default formatting of the operand to `w` and
returns the writer's byte count and error. -/
def diffSlices.WriteATo (ab : diffSlices) (w : Sink) (i : Nat) :
    Option (Nat × Option String) :=
  (ab.atA i).map (fun v => w (strBytes (goFormat v)))

/-- Method `diffSlices.WriteBTo`: `return fmt.Fprint(w, ab.atB(i))`. -/
def diffSlices.WriteBTo (ab : diffSlices) (w : Sink) (i : Nat) :
    Option (Nat × Option String) :=
  (ab.atB i).map (fun v => w (strBytes (goFormat v)))

/-- An operation of an EditScript (spec section 3): `keep ai bi` pairs
`A[ai]` with the equal element `B[bi]`, `delete ai` removes `A[ai]`,
`insert bi` adds `B[bi]`. -/
inductive Op where
  | keep (ai bi : Nat)
  | delete (ai : Nat)
  | insert (bi : Nat)
deriving DecidableEq

/-- The number of Insert plus Delete operations of an edit script. -/
def editCost : List Op → Nat
  | [] => 0
  | .keep _ _ :: s => editCost s
  | .delete _ :: s => editCost s + 1
  | .insert _ :: s => editCost s + 1

/-- The reference edit distance between two sequences under an arbitrary
caller-supplied element equality: the classic dynamic-programming
recurrence, taking the cheapest of matching equal heads, deleting the
head of the first sequence, or inserting the head of the second. -/
def editDistance {α : Type} (eq : α → α → Bool) : List α → List α → Nat
  | [], bs => bs.length
  | as, [] => as.length
  | a :: as, b :: bs =>
      let change := min (editDistance eq as (b :: bs)) (editDistance eq (a :: as) bs) + 1
      if eq a b then min (editDistance eq as bs) change else change

/-- Modelled from the spec: the Edit-Script Computer (`diff.Myers` of
package `myers`, which is repository code not under src/).  Per section
4.1 it produces a shortest edit script, follows runs of equal elements
("snakes") greedily, and on a tie between a delete and an insert prefers
the delete ("deletions before insertions at equal depth").  `ai` and `bi`
are the absolute indices of the heads of the remaining suffixes of A
and B, so the script over full sequences starts at `ai = bi = 0`. -/
def editScript {α : Type} (eq : α → α → Bool) :
    List α → List α → Nat → Nat → List Op
  | [], [], _, _ => []
  | [], _ :: bs, ai, bi => .insert bi :: editScript eq [] bs ai (bi + 1)
  | _ :: as, [], ai, bi => .delete ai :: editScript eq as [] (ai + 1) bi
  | a :: as, b :: bs, ai, bi =>
    if eq a b then
      .keep ai bi :: editScript eq as bs (ai + 1) (bi + 1)
    else
      let dels := editScript eq as (b :: bs) (ai + 1) bi
      let inss := editScript eq (a :: as) bs ai (bi + 1)
      if editCost dels ≤ editCost inss then .delete ai :: dels
      else .insert bi :: inss

/-- The outcome of one run of the pkg-diff-example command. -/
inductive CliOutcome where
  /-- The syntax message was printed and the process exited via
  `os.Exit(2)`, before touching any file. -/
  | usage (msg : String)
  /-- `check` saw a non-nil error and called `log.Fatal`. -/
  | fatal (msg : String)
  /-- Both files were read and the diff was written to standard output;
  the field records the edit script the written diff renders. -/
  | ranDiff (script : List Op)

/-- The process exit code of an outcome: 2 on usage error, the
`log.Fatal` exit code 1 on an I/O error, 0 after writing the diff. -/
def CliOutcome.exitCode : CliOutcome → Nat
  | .usage _ => 2
  | .fatal _ => 1
  | .ranDiff _ => 0

/-- Function `fileLines` of main.go: the lines of the file named `name`.
The operating system is abstracted by `fs`, sending a file name to its
list of lines or to an I/O error. -/
def fileLines (fs : String → Except String (List String))
    (name : String) : Except String (List String) := fs name

/-- Function `main` of cmd/pkg-diff-example/main.go, after `flag.Parse()`:
`args` is `flag.Args()` (the positional, non-flag arguments) and `prog`
is `filepath.Base(os.Args[0])`.  With other than two positional
arguments it prints the syntax line and exits with code 2; otherwise it
reads both files through `fileLines` (a failed read reaches `check`,
which logs the error fatally) and writes their diff.  The call chain
`diff.Myers` / `WithContextSize` / `WriteUnified` is repository code not
under src/; modelled from the spec: the written diff is determined by
the minimal edit script of the two files' lines (section 4.1), recorded
in the outcome; string elements compare by string equality. -/
def goMain (fs : String → Except String (List String))
    (prog : String) (args : List String) : CliOutcome :=
  if args.length ≠ 2 then
    .usage ("syntax: " ++ prog ++ " name1 name2\n")
  else
    match fileLines fs (args.getD 0 "") with
    | .error err => .fatal err
    | .ok aLines =>
      match fileLines fs (args.getD 1 "") with
      | .error err => .fatal err
      | .ok bLines =>
        .ranDiff (editScript (fun x y => x == y) aLines bLines 0 0)

/-- One call to a method of a `diffStrings` pair, with its arguments. -/
inductive StrCall where
  | lenA
  | lenB
  | equal (ai bi : Nat)
  | writeATo (w : Sink) (i : Nat)
  | writeBTo (w : Sink) (i : Nat)

/-- One call to a method of a `diffBytes` pair, with its arguments. -/
inductive BytesCall where
  | lenA
  | lenB
  | equal (ai bi : Nat)
  | writeATo (w : Sink) (i : Nat)
  | writeBTo (w : Sink) (i : Nat)

/-- One call to a method of a `diffSlices` pair, with its arguments. -/
inductive SlicesCall where
  | lenA
  | lenB
  | equal (ai bi : Nat)
  | writeATo (w : Sink) (i : Nat)
  | writeBTo (w : Sink) (i : Nat)

/-- The value a method call returns. -/
inductive CallResult where
  | len (n : Nat)
  | eqRes (r : Option Bool)
  | writeRes (r : Option (Nat × Option String))

/-- Dispatch of one `diffStrings` method call.  The Go methods take the
receiver `ab` by pointer, so each call is embedded as a state
transformer returning the receiver after the call together with the
result; every method body of adapter.go is a single return of an
expression that only reads `ab.a` and `ab.b`, so the returned receiver
is the incoming one. -/
def diffStrings.call (ab : diffStrings) : StrCall → diffStrings × CallResult
  | .lenA => (ab, .len ab.LenA)
  | .lenB => (ab, .len ab.LenB)
  | .equal ai bi => (ab, .eqRes (ab.Equal ai bi))
  | .writeATo w i => (ab, .writeRes (ab.WriteATo w i))
  | .writeBTo w i => (ab, .writeRes (ab.WriteBTo w i))

/-- Dispatch of one `diffBytes` method call; see `diffStrings.call`. -/
def diffBytes.call (ab : diffBytes) : BytesCall → diffBytes × CallResult
  | .lenA => (ab, .len ab.LenA)
  | .lenB => (ab, .len ab.LenB)
  | .equal ai bi => (ab, .eqRes (ab.Equal ai bi))
  | .writeATo w i => (ab, .writeRes (ab.WriteATo w i))
  | .writeBTo w i => (ab, .writeRes (ab.WriteBTo w i))

/-- Dispatch of one `diffSlices` method call; see `diffStrings.call`. -/
def diffSlices.call (ab : diffSlices) : SlicesCall → diffSlices × CallResult
  | .lenA => (ab, .len ab.LenA)
  | .lenB => (ab, .len ab.LenB)
  | .equal ai bi => (ab, .eqRes (ab.Equal ai bi))
  | .writeATo w i => (ab, .writeRes (ab.WriteATo w i))
  | .writeBTo w i => (ab, .writeRes (ab.WriteBTo w i))

/-- The receiver state after a whole sequence of `diffStrings` calls. -/
def diffStrings.callAll (ab : diffStrings) (cs : List StrCall) : diffStrings :=
  cs.foldl (fun p c => (p.call c).fst) ab

/-- The receiver state after a whole sequence of `diffBytes` calls. -/
def diffBytes.callAll (ab : diffBytes) (cs : List BytesCall) : diffBytes :=
  cs.foldl (fun p c => (p.call c).fst) ab

/-- The receiver state after a whole sequence of `diffSlices` calls. -/
def diffSlices.callAll (ab : diffSlices) (cs : List SlicesCall) : diffSlices :=
  cs.foldl (fun p c => (p.call c).fst) ab

/-- A concrete sink that accepts every write in full, used to instantiate
universally quantified witnesses. -/
def okSink : Sink := fun bs => (bs.length, none)

/-- A concrete file system whose file of name `n` holds the single line
`n`, used to instantiate universally quantified witnesses. -/
def singletonFS : String → Except String (List String) := fun n => .ok [n]

theorem editDistance_nil_left {α : Type} (eq : α → α → Bool) (bs : List α) :
    editDistance eq [] bs = bs.length :=
  editDistance.eq_1 eq bs

theorem editDistance_nil_right {α : Type} (eq : α → α → Bool) (as : List α) :
    editDistance eq as [] = as.length := by
  cases as with
  | nil => exact editDistance.eq_1 eq []
  | cons a as => exact editDistance.eq_2 eq (a :: as) (fun h => nomatch h)

theorem editDistance_cons_left_le {α : Type} (eq : α → α → Bool) (a : α)
    (as bs : List α) :
    editDistance eq (a :: as) bs ≤ editDistance eq as bs + 1 := by
  cases bs with
  | nil =>
    rw [editDistance_nil_right, editDistance_nil_right]
    simp only [List.length_cons]
    omega
  | cons b bs =>
    rw [editDistance.eq_3]
    split <;> omega

theorem editDistance_cons_right_le {α : Type} (eq : α → α → Bool) (b : α)
    (as bs : List α) :
    editDistance eq as (b :: bs) ≤ editDistance eq as bs + 1 := by
  cases as with
  | nil =>
    rw [editDistance_nil_left, editDistance_nil_left]
    simp only [List.length_cons]
    omega
  | cons a as =>
    rw [editDistance.eq_3]
    split <;> omega

theorem le_editDistance_cons_left {α : Type} (eq : α → α → Bool) (a : α)
    (as bs : List α) :
    editDistance eq as bs ≤ editDistance eq (a :: as) bs + 1 := by
  induction bs with
  | nil =>
    rw [editDistance_nil_right, editDistance_nil_right]
    simp only [List.length_cons]
    omega
  | cons b bs ih =>
    have h1 := editDistance_cons_right_le eq b as bs
    rw [editDistance.eq_3]
    split <;> omega

theorem le_editDistance_cons_right {α : Type} (eq : α → α → Bool) (b : α)
    (as bs : List α) :
    editDistance eq as bs ≤ editDistance eq as (b :: bs) + 1 := by
  induction as with
  | nil =>
    rw [editDistance_nil_left, editDistance_nil_left]
    simp only [List.length_cons]
    omega
  | cons a as ih =>
    have h1 := editDistance_cons_left_le eq a as bs
    rw [editDistance.eq_3]
    split <;> omega

/-- Claim C3: for all sequences A and B and every caller-supplied
equality, the edit script produced by the Edit-Script Computer is
minimal — its count of Insert plus Delete operations equals the edit
distance between A and B under that equality, as computed by the
reference dynamic-programming definition `editDistance`. -/
theorem claim_C3 {α : Type} (eq : α → α → Bool)
    (as bs : List α) (ai bi : Nat) :
    editCost (editScript eq as bs ai bi) = editDistance eq as bs := by
  induction as, bs, ai, bi using editScript.induct eq with
  | case1 ai bi =>
    rw [editScript.eq_1, editDistance_nil_left]
    rfl
  | case2 b bs ai bi ih =>
    rw [editScript.eq_2]
    simp only [editCost, ih, editDistance_nil_left, List.length_cons]
  | case3 a as ai bi ih =>
    rw [editScript.eq_3]
    simp only [editCost, ih, editDistance_nil_right, List.length_cons]
  | case4 a as b bs ai bi heq ih =>
    rw [editScript.eq_4, if_pos heq, editDistance.eq_3, if_pos heq]
    have h1 := le_editDistance_cons_right eq b as bs
    have h2 := le_editDistance_cons_left eq a as bs
    simp only [editCost, ih]
    omega
  | case5 a as b bs ai bi heq dels inss hle ihd ihi =>
    have hle2 : editCost (editScript eq as (b :: bs) (ai + 1) bi) ≤
        editCost (editScript eq (a :: as) bs ai (bi + 1)) := hle
    rw [editScript.eq_4, if_neg heq, editDistance.eq_3, if_neg heq]
    dsimp only
    rw [if_pos hle2]
    rw [ihd, ihi] at hle2
    simp only [editCost, ihd]
    omega
  | case6 a as b bs ai bi heq dels inss hnle ihd ihi =>
    have hnle2 : ¬editCost (editScript eq as (b :: bs) (ai + 1) bi) ≤
        editCost (editScript eq (a :: as) bs ai (bi + 1)) := hnle
    rw [editScript.eq_4, if_neg heq, editDistance.eq_3, if_neg heq]
    dsimp only
    rw [if_neg hnle2]
    rw [ihd, ihi] at hnle2
    simp only [editCost, ihi]
    omega

theorem strings_call_fst (ab : diffStrings) (c : StrCall) :
    (ab.call c).fst = ab := by
  cases c <;> rfl

theorem bytes_call_fst (ab : diffBytes) (c : BytesCall) :
    (ab.call c).fst = ab := by
  cases c <;> rfl

theorem slices_call_fst (ab : diffSlices) (c : SlicesCall) :
    (ab.call c).fst = ab := by
  cases c <;> rfl

theorem strings_callAll_id (ab : diffStrings) (cs : List StrCall) :
    ab.callAll cs = ab := by
  induction cs generalizing ab with
  | nil => rfl
  | cons c cs ih =>
    show diffStrings.callAll ((ab.call c).fst) cs = ab
    rw [strings_call_fst]
    exact ih ab

theorem bytes_callAll_id (ab : diffBytes) (cs : List BytesCall) :
    ab.callAll cs = ab := by
  induction cs generalizing ab with
  | nil => rfl
  | cons c cs ih =>
    show diffBytes.callAll ((ab.call c).fst) cs = ab
    rw [bytes_call_fst]
    exact ih ab

theorem slices_callAll_id (ab : diffSlices) (cs : List SlicesCall) :
    ab.callAll cs = ab := by
  induction cs generalizing ab with
  | nil => rfl
  | cons c cs ih =>
    show diffSlices.callAll ((ab.call c).fst) cs = ab
    rw [slices_call_fst]
    exact ih ab

/-- Claim C7: no operation of any adapter pair mutates the underlying
sequences — after any sequence of `LenA`, `LenB`, `Equal`, `WriteATo`,
`WriteBTo` calls on a `Strings`, `Bytes` or `Slices` pair, the receiver's
`a` and `b` are unchanged. -/
theorem claim_C7 (p : diffStrings) (q : diffBytes) (r : diffSlices)
    (cs : List StrCall) (cb : List BytesCall) (cr : List SlicesCall) :
    (p.callAll cs).a = p.a ∧ (p.callAll cs).b = p.b ∧
    (q.callAll cb).a = q.a ∧ (q.callAll cb).b = q.b ∧
    (r.callAll cr).a = r.a ∧ (r.callAll cr).b = r.b := by
  rw [strings_callAll_id, bytes_callAll_id, slices_callAll_id]
  exact ⟨rfl, rfl, rfl, rfl, rfl, rfl⟩

/-- Claim C8: the operations of a `Strings` or `Bytes` pair are
deterministic — the outcome of any call is a function of the underlying
sequences and the call's arguments alone (two pairs with equal contents
answer every call identically), and repeating a call returns the very
same result. -/
theorem claim_C8 (p q : diffStrings) (u v : diffBytes)
    (c : StrCall) (cb : BytesCall)
    (hpa : p.a = q.a) (hpb : p.b = q.b)
    (hua : u.a = v.a) (hub : u.b = v.b) :
    p.call c = q.call c ∧ u.call cb = v.call cb ∧
    (p.call c).fst.call c = p.call c ∧
    (u.call cb).fst.call cb = u.call cb := by
  have hpq : p = q := by cases p; cases q; simp_all
  have huv : u = v := by cases u; cases v; simp_all
  subst hpq
  subst huv
  refine ⟨rfl, rfl, ?_, ?_⟩
  · rw [strings_call_fst]
  · rw [bytes_call_fst]

/-- Witness for claim C8 at concrete pairs and calls. -/
theorem claim_C8_witness :
    (Strings ["a"] ["b"]).call (.equal 0 0) =
      (Strings ["a"] ["b"]).call (.equal 0 0) ∧
    (Bytes [[1]] [[2]]).call (.equal 0 0) =
      (Bytes [[1]] [[2]]).call (.equal 0 0) ∧
    ((Strings ["a"] ["b"]).call (.equal 0 0)).fst.call (.equal 0 0) =
      (Strings ["a"] ["b"]).call (.equal 0 0) ∧
    ((Bytes [[1]] [[2]]).call (.equal 0 0)).fst.call (.equal 0 0) =
      (Bytes [[1]] [[2]]).call (.equal 0 0) :=
  claim_C8 (Strings ["a"] ["b"]) (Strings ["a"] ["b"])
    (Bytes [[1]] [[2]]) (Bytes [[1]] [[2]])
    (.equal 0 0) (.equal 0 0) rfl rfl rfl rfl

theorem getElem?_bind2_ne_none {α β : Type} (l : List α) (m : List β)
    (i j : Nat) (f : α → β → Bool) :
    (do
      let x ← l[i]?
      let y ← m[j]?
      return f x y : Option Bool) ≠ none ↔ i < l.length ∧ j < m.length := by
  by_cases hi : i < l.length
  · by_cases hj : j < m.length
    · simp [List.getElem?_eq_getElem hi, List.getElem?_eq_getElem hj, hi, hj]
    · cases hx : l[i]? <;>
        simp [hx, List.getElem?_eq_none (Nat.le_of_not_lt hj), hj]
  · simp [List.getElem?_eq_none (Nat.le_of_not_lt hi), hi]

theorem getElem?_map_ne_none {α β : Type} (l : List α) (i : Nat) (f : α → β) :
    (l[i]?).map f ≠ none ↔ i < l.length := by
  by_cases hi : i < l.length
  · simp [List.getElem?_eq_getElem hi, hi]
  · simp [List.getElem?_eq_none (Nat.le_of_not_lt hi), hi]

/-- Claim C9: the `Equal`, `WriteATo` and `WriteBTo` operations of
`Strings` and `Bytes` pairs are defined (no panic, modelled by a `some`
result) exactly when the index arguments are in range. -/
theorem claim_C9 (a b : List String) (u v : List (List Byte))
    (w : Sink) (ai bi i : Nat) :
    ((Strings a b).Equal ai bi ≠ none ↔ ai < a.length ∧ bi < b.length) ∧
    ((Strings a b).WriteATo w i ≠ none ↔ i < a.length) ∧
    ((Strings a b).WriteBTo w i ≠ none ↔ i < b.length) ∧
    ((Bytes u v).Equal ai bi ≠ none ↔ ai < u.length ∧ bi < v.length) ∧
    ((Bytes u v).WriteATo w i ≠ none ↔ i < u.length) ∧
    ((Bytes u v).WriteBTo w i ≠ none ↔ i < v.length) :=
  ⟨getElem?_bind2_ne_none a b ai bi (fun x y => x == y),
   getElem?_map_ne_none a i (fun s => w (strBytes s)),
   getElem?_map_ne_none b i (fun s => w (strBytes s)),
   getElem?_bind2_ne_none u v ai bi (fun x y => x == y),
   getElem?_map_ne_none u i w,
   getElem?_map_ne_none v i w⟩

/-- Claim C1: a pair built by `Slices` with no comparator supplied
(`equal` nil) answers `Equal(ai, bi)` with true exactly when
`reflect.DeepEqual` holds between element `ai` of `a` and element `bi`
of `b`, at every pair of in-range indices. -/
theorem claim_C1 (xs ys : List GoVal) (p : diffSlices)
    (hp : Slices (.slice xs) (.slice ys) none = .ok p)
    (ai bi : Nat) (ha : ai < xs.length) (hb : bi < ys.length) :
    p.Equal ai bi = some true ↔ deepEqual xs[ai] ys[bi] = true := by
  have hcomp : Slices (.slice xs) (.slice ys) none =
      .ok { a := xs, b := ys, eq := deepEqual } := rfl
  rw [hcomp] at hp
  have hps : p = { a := xs, b := ys, eq := deepEqual } := (Except.ok.inj hp).symm
  subst hps
  simp [diffSlices.Equal, diffSlices.atA, diffSlices.atB,
    List.getElem?_eq_getElem ha, List.getElem?_eq_getElem hb]

/-- Witness for claim C1 at two singleton slices of equal elements. -/
theorem claim_C1_witness :
    (0 : Nat) < 1 ∧
    (({ a := [GoVal.int 1], b := [GoVal.int 1], eq := deepEqual } :
        diffSlices).Equal 0 0 = some true ↔
      deepEqual (GoVal.int 1) (GoVal.int 1) = true) :=
  ⟨by decide,
   claim_C1 [GoVal.int 1] [GoVal.int 1]
     { a := [GoVal.int 1], b := [GoVal.int 1], eq := deepEqual }
     rfl 0 0 (by decide) (by decide)⟩

/-- Counterexample to claim C2 as stated: called with a nil first
argument, `Slices` panics out of `reflect.Value.Type` — the resulting
error is the reflect zero-Value panic, not the descriptive panic that
identifies the offending argument types. -/
theorem claim_C2_counterexample :
    Slices GoVal.nilv (GoVal.slice []) none =
      .error .reflectZeroValue ∧
    GoPanic.reflectZeroValue ≠
      GoPanic.nonSliceArgument GoVal.nilv (GoVal.slice []) :=
  ⟨rfl, fun h => nomatch h⟩

/-- Claim C2 (amended): whenever at least one argument of `Slices` is
not a slice, no usable pair is returned — the call fails fast with a
panic.  The first offending argument reached by the short-circuiting
guard is `a` when `a` is not a slice, and `b` otherwise; when that
argument is non-nil the panic is the descriptive error identifying both
argument types, and when it is nil the panic is the reflect zero-Value
panic, which names no types. -/
theorem claim_C2 (a b : GoVal) (equal : Option (GoVal → GoVal → Bool))
    (h : ¬(isSliceVal a = true ∧ isSliceVal b = true)) :
    (Slices a b equal).isOk = false ∧
    ((if isSliceVal a then b else a) ≠ GoVal.nilv →
      Slices a b equal = .error (.nonSliceArgument a b)) ∧
    ((if isSliceVal a then b else a) = GoVal.nilv →
      Slices a b equal = .error .reflectZeroValue) := by
  cases a <;> cases b
  case slice.slice xs ys => exact absurd (And.intro rfl rfl) h
  all_goals refine ⟨rfl, fun ho => ?_, fun hn => ?_⟩
  all_goals
    first
      | rfl
      | exact absurd rfl ho
      | simp [isSliceVal] at hn

/-- Witness for the amended claim C2: a non-nil non-slice first argument
followed by a nil second argument still raises the descriptive
type-naming panic, because the guard short-circuits before reaching the
nil argument. -/
theorem claim_C2_witness :
    ¬(isSliceVal (GoVal.int 42) = true ∧ isSliceVal GoVal.nilv = true) ∧
    (Slices (GoVal.int 42) GoVal.nilv none).isOk = false ∧
    Slices (GoVal.int 42) GoVal.nilv none =
      .error (.nonSliceArgument (GoVal.int 42) GoVal.nilv) := by
  refine ⟨by decide, ?_, ?_⟩
  · exact (claim_C2 (GoVal.int 42) GoVal.nilv none (by decide)).1
  · exact (claim_C2 (GoVal.int 42) GoVal.nilv none (by decide)).2.1
      (by simp [isSliceVal])

/-- Claim C4: a `Strings` pair reports the two slice lengths through
`LenA`/`LenB` and answers `Equal(ai, bi)` with true exactly when the two
string elements are equal; likewise a `Bytes` pair with byte-wise
equality of its byte-slice elements. -/
theorem claim_C4 (a b : List String) (u v : List (List Byte)) (ai bi : Nat)
    (ha : ai < a.length) (hb : bi < b.length)
    (hu : ai < u.length) (hv : bi < v.length) :
    (Strings a b).LenA = a.length ∧ (Strings a b).LenB = b.length ∧
    ((Strings a b).Equal ai bi = some true ↔ a[ai] = b[bi]) ∧
    (Bytes u v).LenA = u.length ∧ (Bytes u v).LenB = v.length ∧
    ((Bytes u v).Equal ai bi = some true ↔ u[ai] = v[bi]) := by
  refine ⟨rfl, rfl, ?_, rfl, rfl, ?_⟩
  · simp [Strings, diffStrings.Equal,
      List.getElem?_eq_getElem ha, List.getElem?_eq_getElem hb]
  · simp [Bytes, diffBytes.Equal,
      List.getElem?_eq_getElem hu, List.getElem?_eq_getElem hv]

/-- Witness for claim C4 at concrete string and byte slices. -/
theorem claim_C4_witness :
    (0 : Nat) < 1 ∧ (0 : Nat) < 2 ∧
    ((Strings ["x"] ["x", "y"]).LenA = 1 ∧
     (Strings ["x"] ["x", "y"]).LenB = 2 ∧
     ((Strings ["x"] ["x", "y"]).Equal 0 0 = some true ↔ "x" = "x") ∧
     (Bytes [[3]] [[4]]).LenA = 1 ∧
     (Bytes [[3]] [[4]]).LenB = 1 ∧
     ((Bytes [[3]] [[4]]).Equal 0 0 = some true ↔
       ([3] : List Byte) = [4])) :=
  ⟨by decide, by decide,
   claim_C4 ["x"] ["x", "y"] [[3]] [[4]] 0 0
     (by decide) (by decide) (by decide) (by decide)⟩

/-- Claim C5: at every in-range index, `WriteATo` of a `Strings` or
`Bytes` pair hands the sink exactly the bytes of element `i` of `a` and
returns the byte count and error the sink reports, and symmetrically
`WriteBTo` over `b`. -/
theorem claim_C5 (a b : List String) (u v : List (List Byte))
    (w : Sink) (i : Nat) :
    (∀ h : i < a.length,
      (Strings a b).WriteATo w i = some (w (strBytes a[i]))) ∧
    (∀ h : i < b.length,
      (Strings a b).WriteBTo w i = some (w (strBytes b[i]))) ∧
    (∀ h : i < u.length, (Bytes u v).WriteATo w i = some (w u[i])) ∧
    (∀ h : i < v.length, (Bytes u v).WriteBTo w i = some (w v[i])) := by
  refine ⟨fun h => ?_, fun h => ?_, fun h => ?_, fun h => ?_⟩ <;>
    simp [Strings, Bytes, diffStrings.WriteATo, diffStrings.WriteBTo,
      diffBytes.WriteATo, diffBytes.WriteBTo, List.getElem?_eq_getElem h]

/-- Witness for claim C5 at singleton slices and the always-accepting
sink. -/
theorem claim_C5_witness :
    (0 : Nat) < 1 ∧
    (Strings ["x"] ["y"]).WriteATo okSink 0 = some (okSink (strBytes "x")) ∧
    (Strings ["x"] ["y"]).WriteBTo okSink 0 = some (okSink (strBytes "y")) ∧
    (Bytes [[7]] [[8]]).WriteATo okSink 0 = some (okSink [7]) ∧
    (Bytes [[7]] [[8]]).WriteBTo okSink 0 = some (okSink [8]) :=
  ⟨by decide,
   (claim_C5 ["x"] ["y"] [[7]] [[8]] okSink 0).1 (by decide),
   (claim_C5 ["x"] ["y"] [[7]] [[8]] okSink 0).2.1 (by decide),
   (claim_C5 ["x"] ["y"] [[7]] [[8]] okSink 0).2.2.1 (by decide),
   (claim_C5 ["x"] ["y"] [[7]] [[8]] okSink 0).2.2.2 (by decide)⟩

/-- Claim C10: a pair built by `Slices` renders element `i` through
`fmt.Fprint` default formatting and returns the sink's byte count and
error, for `WriteATo` over `a` and `WriteBTo` over `b`. -/
theorem claim_C10 (xs ys : List GoVal)
    (equal : Option (GoVal → GoVal → Bool)) (p : diffSlices)
    (hp : Slices (.slice xs) (.slice ys) equal = .ok p)
    (w : Sink) (i : Nat) :
    (∀ h : i < xs.length,
      p.WriteATo w i = some (w (strBytes (goFormat xs[i])))) ∧
    (∀ h : i < ys.length,
      p.WriteBTo w i = some (w (strBytes (goFormat ys[i])))) := by
  have hcomp : Slices (.slice xs) (.slice ys) equal =
      .ok { a := xs, b := ys, eq := equal.getD deepEqual } := rfl
  rw [hcomp] at hp
  have hps : p = { a := xs, b := ys, eq := equal.getD deepEqual } :=
    (Except.ok.inj hp).symm
  subst hps
  refine ⟨fun h => ?_, fun h => ?_⟩
  · simp [diffSlices.WriteATo, diffSlices.atA, List.getElem?_eq_getElem h]
  · simp [diffSlices.WriteBTo, diffSlices.atB, List.getElem?_eq_getElem h]

/-- Witness for claim C10 at concrete slices and the always-accepting
sink. -/
theorem claim_C10_witness :
    (0 : Nat) < 1 ∧
    ({ a := [GoVal.int 5], b := [GoVal.str "s"], eq := deepEqual } :
        diffSlices).WriteATo okSink 0 =
      some (okSink (strBytes (goFormat (GoVal.int 5)))) ∧
    ({ a := [GoVal.int 5], b := [GoVal.str "s"], eq := deepEqual } :
        diffSlices).WriteBTo okSink 0 =
      some (okSink (strBytes (goFormat (GoVal.str "s")))) :=
  ⟨by decide,
   (claim_C10 [GoVal.int 5] [GoVal.str "s"] none
     { a := [GoVal.int 5], b := [GoVal.str "s"], eq := deepEqual }
     rfl okSink 0).1 (by decide),
   (claim_C10 [GoVal.int 5] [GoVal.str "s"] none
     { a := [GoVal.int 5], b := [GoVal.str "s"], eq := deepEqual }
     rfl okSink 0).2 (by decide)⟩

/-- Claim C6: invoked with a number of positional arguments different
from two, the command prints the syntax message and exits with code 2,
performing no diff; with exactly two arguments it reads both files and
writes their diff, exiting 0. -/
theorem claim_C6 (fs : String → Except String (List String))
    (prog : String) (args : List String) (aLines bLines : List String) :
    (args.length ≠ 2 →
      goMain fs prog args = .usage ("syntax: " ++ prog ++ " name1 name2\n") ∧
      (goMain fs prog args).exitCode = 2) ∧
    (args.length = 2 →
      fs (args.getD 0 "") = .ok aLines →
      fs (args.getD 1 "") = .ok bLines →
      goMain fs prog args =
        .ranDiff (editScript (fun x y => x == y) aLines bLines 0 0) ∧
      (goMain fs prog args).exitCode = 0) := by
  constructor
  · intro h
    unfold goMain
    rw [if_pos h]
    exact ⟨rfl, rfl⟩
  · intro h2 hfa hfb
    unfold goMain fileLines
    rw [if_neg (by omega)]
    rw [hfa, hfb]
    exact ⟨rfl, rfl⟩

/-- Witness for claim C6: one run with a single argument, one run with
two readable files. -/
theorem claim_C6_witness :
    (["onlyone"].length ≠ 2 ∧
      goMain singletonFS "prog" ["onlyone"] =
        .usage ("syntax: " ++ "prog" ++ " name1 name2\n") ∧
      (goMain singletonFS "prog" ["onlyone"]).exitCode = 2) ∧
    (["fa", "fb"].length = 2 ∧
      singletonFS (["fa", "fb"].getD 0 "") = .ok ["fa"] ∧
      singletonFS (["fa", "fb"].getD 1 "") = .ok ["fb"] ∧
      goMain singletonFS "prog" ["fa", "fb"] =
        .ranDiff (editScript (fun x y => x == y) ["fa"] ["fb"] 0 0) ∧
      (goMain singletonFS "prog" ["fa", "fb"]).exitCode = 0) := by
  refine ⟨⟨by decide, ?_⟩, by decide, rfl, rfl, ?_⟩
  · exact (claim_C6 singletonFS "prog" ["onlyone"] [] []).1 (by decide)
  · exact (claim_C6 singletonFS "prog" ["fa", "fb"] ["fa"] ["fb"]).2
      (by decide) rfl rfl

end PkgDiff
